import Mathlib

/-!
Verification of the resumable batch collection engine of the
criticality_score repository.

The development shallowly embeds two subsystems:

* the local worker loop `WorkLoop.Run` / `WorkLoop.process` from
  src/cmd/collect_signals/localworker/loop.go, modelled as a pure function
  from an environment of I/O oracles (checkpoint saves, output pre-checks,
  worker outcomes, metadata writes, checkpoint clear) to an event trace and
  a run result;
* the per-line collection loop of src/cmd/collect_signals/main.go;
* the source registry (Register / EmptySets / sourcesForRepository /
  Collect).  The registry implementation file is not part of the sources
  at hand (only its test, src/internal/collector/registry_test.go), so the
  registry operations are modelled from the specification, as indicated in
  their doc comments.
-/

namespace Criticality

/-! ## The work loop (src/cmd/collect_signals/localworker/loop.go) -/

/-- `maxAttempts` from loop.go: the maximum number of times a batch will be
attempted before giving up and moving on to the next batch. -/
def maxAttempts : Nat := 7

/-- Outcome of the `resultExists` pre-check made by `WorkLoop.process`:
the check itself may fail (`err`), or report that the result already
exists (`yes`) or does not (`no`). -/
inductive ExRes
  | err
  | yes
  | no
deriving DecidableEq

/-- Observable I/O events of one run of `WorkLoop.Run`, in program order.
`save` is `State.Save` (the checkpoint write, with the attempt value being
persisted), `existsCheck` is the `resultExists` pre-check inside
`WorkLoop.process`, `workerCall` is `Worker.Process`, `postProcess` is
`Worker.PostProcess`, `metaWrite` is `writeMetadata` (with `raw = true`
for the raw bucket), and `clear` is `State.Clear`. -/
inductive Event
  | save (shard attempt : Nat) (ok : Bool)
  | existsCheck (shard attempt : Nat) (res : ExRes)
  | workerCall (shard attempt : Nat) (data : List String) (ok : Bool)
  | postProcess (shard : Nat)
  | metaWrite (raw : Bool) (shards jobTime : Nat) (ok : Bool)
  | clear (ok : Bool)
deriving DecidableEq

/-- The environment of I/O oracles a run executes against.  `saveOk sh a`
is the outcome of persisting the checkpoint for shard `sh` with attempt
counter `a`; `exRes sh a` is the outcome of the `resultExists` pre-check
on that attempt; `workerOk sh a` is the outcome of `Worker.Process` on
that attempt; the remaining fields are the outcomes of the two
`writeMetadata` calls and of `State.Clear`. -/
structure Env where
  saveOk : Nat → Nat → Bool
  exRes : Nat → Nat → ExRes
  workerOk : Nat → Nat → Bool
  metaOkPrimary : Bool
  metaOkRaw : Bool
  clearOk : Bool

/-- The checkpoint state loaded by `loadState`: shard index, attempt
counter and the job timestamp (`s.Shard`, `s.Attempt`, `s.JobTime`). -/
structure LoopState where
  shard : Nat
  attempt : Nat
  jobTime : Nat
deriving DecidableEq

/-- Result of `WorkLoop.Run`: success, or one of its error returns. -/
inductive RunRes
  | ok
  | restoreMismatch
  | saveFailed
  | metaPrimaryFailed
  | metaRawFailed
  | clearFailed
deriving DecidableEq

/-- `WorkLoop.process` (loop.go lines 128-143) for shard `sh`, attempt
`a`, shard data `d`: run the `resultExists` pre-check; a pre-check error
is returned as an error; an existing result returns success without
invoking the worker; otherwise the worker runs and its outcome decides
the result.  Returns the emitted events and whether the call succeeded. -/
def process (sh a : Nat) (d : List String) (ex : ExRes) (wOk : Bool) :
    List Event × Bool :=
  match ex with
  | .err => ([Event.existsCheck sh a ExRes.err], false)
  | .yes => ([Event.existsCheck sh a ExRes.yes], true)
  | .no => ([Event.existsCheck sh a ExRes.no, Event.workerCall sh a d wOk], wOk)

/-- The inner retry loop of `WorkLoop.Run` (loop.go lines 187-209),
`for s.Attempt < maxAttempts`, with `fuel = maxAttempts - a` remaining
iterations and `a` the current attempt counter.  Each iteration
increments the attempt counter, saves the checkpoint (a failed save
returns immediately and is fatal), calls `process`, and on success calls
`PostProcess` and breaks; on failure it retries.  Returns the emitted
events and whether a fatal save failure occurred. -/
def attemptLoop (env : Env) (sh : Nat) (d : List String) :
    Nat → Nat → List Event × Bool
  | _, 0 => ([], false)
  | a, fuel + 1 =>
    let a' := a + 1
    if env.saveOk sh a' then
      match process sh a' d (env.exRes sh a') (env.workerOk sh a') with
      | (evs, true) =>
        (Event.save sh a' true :: evs ++ [Event.postProcess sh], false)
      | (evs, false) =>
        let r := attemptLoop env sh d a' fuel
        (Event.save sh a' true :: evs ++ r.1, r.2)
    else ([Event.save sh a' false], true)

/-- The retry loop entered with attempt counter `a`: it may run at most
`maxAttempts - a` more iterations, matching the guard
`s.Attempt < maxAttempts`. -/
def attemptPhase (env : Env) (sh : Nat) (d : List String) (a : Nat) :
    List Event × Bool :=
  attemptLoop env sh d a (maxAttempts - a)

/-- The outer shard loop of `WorkLoop.Run` (loop.go lines 181-214) over
the remaining shards, with `sh` the current shard index and `a` the
attempt counter entering the first shard (the restored value; 0 for all
later shards).  After the retry loop — whether the shard succeeded or
exhausted its attempts — the attempt counter is reset and the shard index
advanced; only a checkpoint-save failure aborts. -/
def shardLoop (env : Env) : List (List String) → Nat → Nat → List Event × Bool
  | [], _, _ => ([], false)
  | d :: rest, sh, a =>
    let r := attemptPhase env sh d a
    if r.2 then (r.1, true)
    else
      let r' := shardLoop env rest (sh + 1) 0
      (r.1 ++ r'.1, r'.2)

/-- The tail of `WorkLoop.Run` from the main loop onwards (loop.go lines
181-231): run the shard loop over the remaining shards, then write the
completion metadata to the primary and the raw bucket (each carrying the
final shard count and the job timestamp), and clear the checkpoint last;
any failure returns the corresponding error. -/
def runFrom (env : Env) (rem : List (List String)) (sh a t : Nat) :
    List Event × RunRes :=
  let r := shardLoop env rem sh a
  if r.2 then (r.1, RunRes.saveFailed)
  else
    let c := sh + rem.length
    if env.metaOkPrimary then
      if env.metaOkRaw then
        if env.clearOk then
          (r.1 ++ [Event.metaWrite false c t true, Event.metaWrite true c t true,
            Event.clear true], RunRes.ok)
        else
          (r.1 ++ [Event.metaWrite false c t true, Event.metaWrite true c t true,
            Event.clear false], RunRes.clearFailed)
      else
        (r.1 ++ [Event.metaWrite false c t true, Event.metaWrite true c t false],
          RunRes.metaRawFailed)
    else
      (r.1 ++ [Event.metaWrite false c t false], RunRes.metaPrimaryFailed)

/-- `WorkLoop.Run` (loop.go lines 147-232) on the list of shards produced
by `iterator.Batch` and the checkpoint state returned by `loadState`.
When the saved shard index `S` is positive, the restore loop consumes the
items of the first `S` shards without invoking the worker, erroring with
a shard mismatch exactly when fewer than `S - 1` shards exist; the main
loop then resumes on the remaining shards at shard index `S` with the
restored attempt counter. -/
def run (env : Env) (shards : List (List String)) (st : LoopState) :
    List Event × RunRes :=
  if st.shard > 0 then
    if shards.length < st.shard - 1 then ([], RunRes.restoreMismatch)
    else runFrom env (shards.drop st.shard) st.shard st.attempt st.jobTime
  else runFrom env shards st.shard st.attempt st.jobTime

/-- The worker invocations recorded in a trace, as
(shard, attempt, data, outcome) tuples in trace order. -/
def workerEvents (t : List Event) : List (Nat × Nat × List String × Bool) :=
  t.filterMap fun e =>
    match e with
    | Event.workerCall sh a d ok => some (sh, a, d, ok)
    | _ => none

/-- The shard indices of the worker invocations recorded in a trace. -/
def workerShards (t : List Event) : List Nat :=
  t.filterMap fun e =>
    match e with
    | Event.workerCall sh _ _ _ => some sh
    | _ => none

/-- Trace checker: scanning the trace left to right while accumulating the
(shard, attempt) pairs of successful checkpoint saves, every pre-check and
every worker invocation for an attempt must be preceded by a successful
save of that same shard and attempt counter. -/
def savedBeforeAttempt : List Event → List (Nat × Nat) → Bool
  | [], _ => true
  | Event.save sh a true :: t, acc => savedBeforeAttempt t ((sh, a) :: acc)
  | Event.existsCheck sh a _ :: t, acc =>
    decide ((sh, a) ∈ acc) && savedBeforeAttempt t acc
  | Event.workerCall sh a _ _ :: t, acc =>
    decide ((sh, a) ∈ acc) && savedBeforeAttempt t acc
  | _ :: t, acc => savedBeforeAttempt t acc

/-- The (shard, attempt) pairs of the successful saves in a trace, pushed
onto an accumulator. -/
def savesIn : List Event → List (Nat × Nat) → List (Nat × Nat)
  | [], acc => acc
  | Event.save sh a true :: t, acc => savesIn t ((sh, a) :: acc)
  | _ :: t, acc => savesIn t acc

/-- Trace checker: the trace contains no failed checkpoint save. -/
def noFailedSave : List Event → Bool
  | [] => true
  | Event.save _ _ false :: _ => false
  | _ :: t => noFailedSave t

/-- Trace/result checker: if a checkpoint save fails, it is the final
event of the trace (nothing is attempted after it) and the run result is
the save-failure error. -/
def abortsOnSaveFailure : List Event → RunRes → Bool
  | [], _ => true
  | Event.save _ _ false :: rest, res =>
    rest.isEmpty && res == RunRes.saveFailed
  | _ :: rest, res => abortsOnSaveFailure rest res

/-- Trace checker: the trace contains a checkpoint-clear event. -/
def hasClear (t : List Event) : Bool :=
  t.any fun e =>
    match e with
    | Event.clear _ => true
    | _ => false

/-- Whether the attempt of shard `sh` with attempt counter `a` fails in
environment `env`: `WorkLoop.process` returns an error exactly when the
`resultExists` pre-check errors, or the result does not exist and the
worker fails. -/
def attemptFails (env : Env) (sh a : Nat) : Bool :=
  match env.exRes sh a with
  | .err => true
  | .yes => false
  | .no => !env.workerOk sh a

/-! ## The per-line collection loop (src/cmd/collect_signals/main.go) -/

/-- Outcome of `Collector.Collect` for one repository, as observed by
`main`: success, the distinguished `ErrUncollectableRepo` error, or any
other error. -/
inductive CollectOutcome
  | ok
  | uncollectable
  | failed
deriving DecidableEq

/-- How the scanning loop of `main` terminates: the input was exhausted
(`completed`), the `ErrUncollectableRepo` branch executed its `return`
statement and left `main` (`earlyReturn`), or a non-distinguished
collection error called `os.Exit(1)` (`exitError`). -/
inductive MainExit
  | completed
  | earlyReturn
  | exitError
deriving DecidableEq

/-- The scanning loop of `main` (main.go lines 184-231) over the input
repositories, with `collect` giving each repository's `Collect` outcome.
Returns the repositories whose signals were written to the output,
together with how the loop terminated.  On `ErrUncollectableRepo` the
code logs a warning and executes `return`, which exits `main`: the
remaining repositories are never collected or written. -/
def collectLoop (collect : String → CollectOutcome) :
    List String → List String × MainExit
  | [] => ([], MainExit.completed)
  | r :: rest =>
    match collect r with
    | CollectOutcome.uncollectable => ([], MainExit.earlyReturn)
    | CollectOutcome.failed => ([], MainExit.exitError)
    | CollectOutcome.ok =>
      let p := collectLoop collect rest
      (r :: p.1, p.2)

/-! ## The source registry

The registry implementation (internal/collector/registry.go) is not among
the source files at hand; only its test,
src/internal/collector/registry_test.go, is.  The operations below are
therefore modelled from the specification. -/

/-- A signal Set as the registry observes it: its namespace and whether
it is a populated set or an empty template. -/
structure SigSet where
  ns : String
  populated : Bool
deriving DecidableEq

instance : Inhabited SigSet := ⟨⟨"", false⟩⟩

/-- A signal Source as the registry observes it: `emptySet` is
`EmptySet()` (pure, no I/O; its namespace is the source's namespace),
`isSupported` is the support predicate over a repository's canonical URL
string, and `get` is `Get(ctx, repo, jobID)`, returning a Set or an
error. -/
structure Source where
  emptySet : SigSet
  isSupported : String → Bool
  get : String → String → Except String SigSet

/-- Modelled from the spec: `SourcesFor(repo)` / `sourcesForRepository`
returns the subset of registered sources whose support predicate holds
for the repository (registry.go is not among the sources at hand). -/
def sourcesForRepository (r : List Source) (repo : String) : List Source :=
  r.filter fun s => s.isSupported repo

/-- Modelled from the spec: `Collect(ctx, repo, jobID)` produces, for
every registered source in registration order, exactly one Set — the
fetched Set for a source that supports the repository (an error from the
fetch is propagated for the whole repository, the fail-fast default), and
the source's empty template for one that does not (registry.go is not
among the sources at hand). -/
def collect (r : List Source) (repo jobID : String) :
    Except String (List SigSet) :=
  match r with
  | [] => Except.ok []
  | s :: rest =>
    if s.isSupported repo then
      match s.get repo jobID with
      | Except.error e => Except.error e
      | Except.ok v =>
        match collect rest repo jobID with
        | Except.error e => Except.error e
        | Except.ok sets => Except.ok (v :: sets)
    else
      match collect rest repo jobID with
      | Except.error e => Except.error e
      | Except.ok sets => Except.ok (s.emptySet :: sets)

/-- A character allowed in a namespace: a lowercase ASCII letter, an
ASCII digit, or an underscore. -/
def validChar (c : Char) : Bool :=
  (97 ≤ c.toNat && c.toNat ≤ 122) || (48 ≤ c.toNat && c.toNat ≤ 57) ||
    c.toNat == 95

/-- Modelled from the spec: a namespace string is structurally valid when
it is non-empty and contains no reserved character; concretely, only
lowercase letters, digits and underscores are allowed, matching the
registry test in which the namespace consisting of the single character
in `exclam` below must be rejected (registry.go is not among the sources
at hand). -/
def validNamespace (ns : String) : Bool :=
  !ns.data.isEmpty && ns.data.all validChar

/-- The invalid one-character namespace used by the registry test. -/
def exclam : String := "!"

/-- Modelled from the spec: `Register(source)` fails fatally when the
source's namespace is structurally invalid or collides with an
already-registered namespace, and otherwise appends the source
(registry.go is not among the sources at hand; the fatal panic is
modelled as an error result). -/
def register (r : List Source) (s : Source) :
    Except String (List Source) :=
  if !validNamespace s.emptySet.ns then Except.error "invalid namespace"
  else if r.any fun s0 => s0.emptySet.ns == s.emptySet.ns then
    Except.error "duplicate namespace"
  else Except.ok (r ++ [s])

/-- Registering a list of sources in order, starting from registry `r`. -/
def registerFrom (r : List Source) : List Source → Except String (List Source)
  | [] => Except.ok r
  | s :: rest =>
    match register r s with
    | Except.error e => Except.error e
    | Except.ok r' => registerFrom r' rest

/-- Registering a list of sources in order into an empty registry. -/
def registerAll (ss : List Source) : Except String (List Source) :=
  registerFrom [] ss

/-- Modelled from the spec: `EmptySets()` returns one empty template Set
per registered source, in registration order (registry.go is not among
the sources at hand). -/
def emptySets (r : List Source) : List SigSet :=
  r.map fun s => s.emptySet

/-! ## Concrete environments and sources used in closed instances -/

/-- Environment in which every I/O operation succeeds and no shard's
output pre-exists. -/
def envAllOk : Env where
  saveOk := fun _ _ => true
  exRes := fun _ _ => ExRes.no
  workerOk := fun _ _ => true
  metaOkPrimary := true
  metaOkRaw := true
  clearOk := true

/-- Environment in which every worker invocation for shard 0 fails and
everything else succeeds. -/
def envFail0 : Env :=
  { envAllOk with workerOk := fun sh _ => sh != 0 }

/-- Environment in which the primary metadata write fails. -/
def envMetaFail : Env :=
  { envAllOk with metaOkPrimary := false }

/-- Environment in which every `resultExists` pre-check reports that the
output already exists. -/
def envAllYes : Env :=
  { envAllOk with exRes := fun _ _ => ExRes.yes }

/-- Environment in which the `resultExists` pre-check errors on the first
attempt of shard 0 and reports no pre-existing output otherwise. -/
def envPreErr : Env :=
  { envAllOk with
    exRes := fun sh a => if sh == 0 && a == 1 then ExRes.err else ExRes.no }

/-- A source with namespace a that supports every repository and fetches
a populated set. -/
def srcA : Source where
  emptySet := ⟨"a", false⟩
  isSupported := fun _ => true
  get := fun _ _ => Except.ok ⟨"a", true⟩

/-- A second source with namespace a, used to exercise the duplicate
namespace check. -/
def srcA2 : Source where
  emptySet := ⟨"a", false⟩
  isSupported := fun _ => false
  get := fun _ _ => Except.ok ⟨"a", true⟩

/-- A source with namespace b that supports no repository. -/
def srcB : Source where
  emptySet := ⟨"b", false⟩
  isSupported := fun _ => false
  get := fun _ _ => Except.ok ⟨"b", true⟩

/-- A source whose namespace is the structurally invalid string used by
the registry test. -/
def srcBad : Source where
  emptySet := ⟨exclam, false⟩
  isSupported := fun _ => true
  get := fun _ _ => Except.ok ⟨exclam, true⟩

/-- A source with namespace f that supports every repository and whose
fetch always errors. -/
def srcFail : Source where
  emptySet := ⟨"f", false⟩
  isSupported := fun _ => true
  get := fun _ _ => Except.error "fetch failed"

/-- The `Collect` outcomes of the closed uncollectable-repository
scenario: the first repository is uncollectable, every other one
collects fine. -/
def collectAB (r : String) : CollectOutcome :=
  if r == "a" then CollectOutcome.uncollectable else CollectOutcome.ok

/-! ## Trace lemmas for the retry loop -/

theorem workerEvents_append (t1 t2 : List Event) :
    workerEvents (t1 ++ t2) = workerEvents t1 ++ workerEvents t2 := by
  simp [workerEvents]

theorem workerShards_append (t1 t2 : List Event) :
    workerShards (t1 ++ t2) = workerShards t1 ++ workerShards t2 := by
  simp [workerShards]

theorem attemptLoop_worker_eq (env : Env) (sh : Nat) (d : List String) :
    ∀ fuel a x, x ∈ workerShards (attemptLoop env sh d a fuel).1 → x = sh := by
  intro fuel
  induction fuel with
  | zero =>
    intro a x hx
    simp [attemptLoop, workerShards] at hx
  | succ n ih =>
    intro a x hx
    by_cases hs : env.saveOk sh (a + 1)
    · cases hex : env.exRes sh (a + 1) with
      | err =>
        simp [attemptLoop, process, hs, hex, workerShards] at hx
        exact ih (a + 1) x (by simpa [workerShards] using hx)
      | yes =>
        simp [attemptLoop, process, hs, hex, workerShards] at hx
      | no =>
        cases hw : env.workerOk sh (a + 1) with
        | true =>
          simp [attemptLoop, process, hs, hex, hw, workerShards] at hx
          omega
        | false =>
          simp [attemptLoop, process, hs, hex, hw, workerShards] at hx
          rcases hx with hx | hx
          · omega
          · exact ih (a + 1) x (by simpa [workerShards] using hx)
    · simp [attemptLoop, hs, workerShards] at hx

theorem savedBeforeAttempt_append (t1 t2 : List Event) :
    ∀ acc, savedBeforeAttempt (t1 ++ t2) acc =
      (savedBeforeAttempt t1 acc && savedBeforeAttempt t2 (savesIn t1 acc)) := by
  induction t1 with
  | nil => intro acc; simp [savedBeforeAttempt, savesIn]
  | cons e t ih =>
    intro acc
    cases e with
    | save sh a ok =>
      cases ok with
      | true => simp [savedBeforeAttempt, savesIn, ih]
      | false => simp [savedBeforeAttempt, savesIn, ih]
    | existsCheck sh a res =>
      simp [savedBeforeAttempt, savesIn, ih, Bool.and_assoc]
    | workerCall sh a d ok =>
      simp [savedBeforeAttempt, savesIn, ih, Bool.and_assoc]
    | postProcess sh => simp [savedBeforeAttempt, savesIn, ih]
    | metaWrite raw c t0 ok => simp [savedBeforeAttempt, savesIn, ih]
    | clear ok => simp [savedBeforeAttempt, savesIn, ih]

theorem attemptLoop_sba (env : Env) (sh : Nat) (d : List String) :
    ∀ fuel a acc, savedBeforeAttempt (attemptLoop env sh d a fuel).1 acc = true := by
  intro fuel
  induction fuel with
  | zero => intro a acc; simp [attemptLoop, savedBeforeAttempt]
  | succ n ih =>
    intro a acc
    by_cases hs : env.saveOk sh (a + 1)
    · cases hex : env.exRes sh (a + 1) with
      | err => simp [attemptLoop, process, hs, hex, savedBeforeAttempt, ih]
      | yes => simp [attemptLoop, process, hs, hex, savedBeforeAttempt]
      | no =>
        cases hw : env.workerOk sh (a + 1) with
        | true => simp [attemptLoop, process, hs, hex, hw, savedBeforeAttempt]
        | false => simp [attemptLoop, process, hs, hex, hw, savedBeforeAttempt, ih]
    · simp [attemptLoop, hs, savedBeforeAttempt]

theorem noFailedSave_append (t1 t2 : List Event) :
    noFailedSave (t1 ++ t2) = (noFailedSave t1 && noFailedSave t2) := by
  induction t1 with
  | nil => simp [noFailedSave]
  | cons e t ih =>
    cases e with
    | save sh a ok =>
      cases ok with
      | true => simp [noFailedSave, ih]
      | false => simp [noFailedSave]
    | existsCheck sh a res => simp [noFailedSave, ih]
    | workerCall sh a d ok => simp [noFailedSave, ih]
    | postProcess sh => simp [noFailedSave, ih]
    | metaWrite raw c t0 ok => simp [noFailedSave, ih]
    | clear ok => simp [noFailedSave, ih]

theorem abortsOnSaveFailure_append (t1 t2 : List Event) (res : RunRes)
    (h : noFailedSave t1 = true) :
    abortsOnSaveFailure (t1 ++ t2) res = abortsOnSaveFailure t2 res := by
  induction t1 with
  | nil => simp
  | cons e t ih =>
    cases e with
    | save sh a ok =>
      cases ok with
      | true =>
        simp only [noFailedSave] at h
        simp [abortsOnSaveFailure, ih h]
      | false => simp [noFailedSave] at h
    | existsCheck sh a res0 =>
      simp only [noFailedSave] at h
      simp [abortsOnSaveFailure, ih h]
    | workerCall sh a d ok =>
      simp only [noFailedSave] at h
      simp [abortsOnSaveFailure, ih h]
    | postProcess sh =>
      simp only [noFailedSave] at h
      simp [abortsOnSaveFailure, ih h]
    | metaWrite raw c t0 ok =>
      simp only [noFailedSave] at h
      simp [abortsOnSaveFailure, ih h]
    | clear ok =>
      simp only [noFailedSave] at h
      simp [abortsOnSaveFailure, ih h]

theorem attemptLoop_nfs (env : Env) (sh : Nat) (d : List String) :
    ∀ fuel a, (attemptLoop env sh d a fuel).2 = false →
      noFailedSave (attemptLoop env sh d a fuel).1 = true := by
  intro fuel
  induction fuel with
  | zero => intro a _; simp [attemptLoop, noFailedSave]
  | succ n ih =>
    intro a hf
    by_cases hs : env.saveOk sh (a + 1)
    · cases hex : env.exRes sh (a + 1) with
      | err =>
        simp [attemptLoop, process, hs, hex, noFailedSave, noFailedSave_append]
          at hf ⊢
        exact ih (a + 1) hf
      | yes =>
        simp [attemptLoop, process, hs, hex, noFailedSave, noFailedSave_append]
      | no =>
        cases hw : env.workerOk sh (a + 1) with
        | true =>
          simp [attemptLoop, process, hs, hex, hw, noFailedSave,
            noFailedSave_append]
        | false =>
          simp [attemptLoop, process, hs, hex, hw, noFailedSave,
            noFailedSave_append] at hf ⊢
          exact ih (a + 1) hf
    · simp [attemptLoop, hs] at hf

theorem attemptLoop_fatal (env : Env) (sh : Nat) (d : List String) :
    ∀ fuel a, (attemptLoop env sh d a fuel).2 = true →
      ∃ t1 sh1 a1,
        (attemptLoop env sh d a fuel).1 = t1 ++ [Event.save sh1 a1 false] ∧
        noFailedSave t1 = true := by
  intro fuel
  induction fuel with
  | zero => intro a h; simp [attemptLoop] at h
  | succ n ih =>
    intro a h
    by_cases hs : env.saveOk sh (a + 1)
    · cases hex : env.exRes sh (a + 1) with
      | err =>
        have hstep : attemptLoop env sh d a (n + 1) =
            (Event.save sh (a + 1) true ::
              Event.existsCheck sh (a + 1) ExRes.err ::
              (attemptLoop env sh d (a + 1) n).1,
             (attemptLoop env sh d (a + 1) n).2) := by
          simp [attemptLoop, process, hs, hex]
        rw [hstep] at h
        obtain ⟨t1, sh1, a1, he, hn⟩ := ih (a + 1) h
        rw [hstep]
        refine ⟨Event.save sh (a + 1) true ::
          Event.existsCheck sh (a + 1) ExRes.err :: t1, sh1, a1, ?_, ?_⟩
        · simp [he]
        · simp [noFailedSave, hn]
      | yes => simp [attemptLoop, process, hs, hex] at h
      | no =>
        cases hw : env.workerOk sh (a + 1) with
        | true => simp [attemptLoop, process, hs, hex, hw] at h
        | false =>
          have hstep : attemptLoop env sh d a (n + 1) =
              (Event.save sh (a + 1) true ::
                Event.existsCheck sh (a + 1) ExRes.no ::
                Event.workerCall sh (a + 1) d false ::
                (attemptLoop env sh d (a + 1) n).1,
               (attemptLoop env sh d (a + 1) n).2) := by
            simp [attemptLoop, process, hs, hex, hw]
          rw [hstep] at h
          obtain ⟨t1, sh1, a1, he, hn⟩ := ih (a + 1) h
          rw [hstep]
          refine ⟨Event.save sh (a + 1) true ::
            Event.existsCheck sh (a + 1) ExRes.no ::
            Event.workerCall sh (a + 1) d false :: t1, sh1, a1, ?_, ?_⟩
          · simp [he]
          · simp [noFailedSave, hn]
    · refine ⟨[], sh, a + 1, ?_, ?_⟩ <;> simp [attemptLoop, hs, noFailedSave]

theorem attemptLoop_noClear (env : Env) (sh : Nat) (d : List String) :
    ∀ fuel a, hasClear (attemptLoop env sh d a fuel).1 = false := by
  intro fuel
  induction fuel with
  | zero => intro a; simp [attemptLoop, hasClear]
  | succ n ih =>
    intro a
    by_cases hs : env.saveOk sh (a + 1)
    · cases hex : env.exRes sh (a + 1) with
      | err => simp [attemptLoop, process, hs, hex, hasClear] at ih ⊢; exact ih (a + 1)
      | yes => simp [attemptLoop, process, hs, hex, hasClear]
      | no =>
        cases hw : env.workerOk sh (a + 1) with
        | true => simp [attemptLoop, process, hs, hex, hw, hasClear]
        | false =>
          simp [attemptLoop, process, hs, hex, hw, hasClear] at ih ⊢
          exact ih (a + 1)
    · simp [attemptLoop, hs, hasClear]

theorem abortsOnSaveFailure_of_clean (t : List Event) (res : RunRes)
    (h : noFailedSave t = true) : abortsOnSaveFailure t res = true := by
  induction t with
  | nil => simp [abortsOnSaveFailure]
  | cons e t ih =>
    cases e with
    | save sh a ok =>
      cases ok with
      | true =>
        simp only [noFailedSave] at h
        simp [abortsOnSaveFailure, ih h]
      | false => simp [noFailedSave] at h
    | existsCheck sh a res0 =>
      simp only [noFailedSave] at h
      simp [abortsOnSaveFailure, ih h]
    | workerCall sh a d ok =>
      simp only [noFailedSave] at h
      simp [abortsOnSaveFailure, ih h]
    | postProcess sh =>
      simp only [noFailedSave] at h
      simp [abortsOnSaveFailure, ih h]
    | metaWrite raw c t0 ok =>
      simp only [noFailedSave] at h
      simp [abortsOnSaveFailure, ih h]
    | clear ok =>
      simp only [noFailedSave] at h
      simp [abortsOnSaveFailure, ih h]

theorem hasClear_append (t1 t2 : List Event) :
    hasClear (t1 ++ t2) = (hasClear t1 || hasClear t2) := by
  simp [hasClear]

/-! ## Trace lemmas for the shard loop -/

theorem attemptPhase_worker_eq (env : Env) (sh : Nat) (d : List String)
    (a x : Nat) (hx : x ∈ workerShards (attemptPhase env sh d a).1) : x = sh :=
  attemptLoop_worker_eq env sh d (maxAttempts - a) a x hx

theorem attemptPhase_sba (env : Env) (sh : Nat) (d : List String) (a : Nat)
    (acc : List (Nat × Nat)) :
    savedBeforeAttempt (attemptPhase env sh d a).1 acc = true :=
  attemptLoop_sba env sh d (maxAttempts - a) a acc

theorem attemptPhase_nfs (env : Env) (sh : Nat) (d : List String) (a : Nat)
    (h : (attemptPhase env sh d a).2 = false) :
    noFailedSave (attemptPhase env sh d a).1 = true :=
  attemptLoop_nfs env sh d (maxAttempts - a) a h

theorem attemptPhase_fatal (env : Env) (sh : Nat) (d : List String) (a : Nat)
    (h : (attemptPhase env sh d a).2 = true) :
    ∃ t1 sh1 a1,
      (attemptPhase env sh d a).1 = t1 ++ [Event.save sh1 a1 false] ∧
      noFailedSave t1 = true :=
  attemptLoop_fatal env sh d (maxAttempts - a) a h

theorem attemptPhase_noClear (env : Env) (sh : Nat) (d : List String)
    (a : Nat) : hasClear (attemptPhase env sh d a).1 = false :=
  attemptLoop_noClear env sh d (maxAttempts - a) a

theorem shardLoop_worker_ge (env : Env) :
    ∀ rem sh a x, x ∈ workerShards (shardLoop env rem sh a).1 → sh ≤ x := by
  intro rem
  induction rem with
  | nil => intro sh a x hx; simp [shardLoop, workerShards] at hx
  | cons d rest ih =>
    intro sh a x hx
    cases hf : (attemptPhase env sh d a).2 with
    | true =>
      simp [shardLoop, hf] at hx
      have := attemptPhase_worker_eq env sh d a x hx
      omega
    | false =>
      simp [shardLoop, hf, workerShards_append] at hx
      rcases hx with hx | hx
      · have := attemptPhase_worker_eq env sh d a x hx
        omega
      · have := ih (sh + 1) 0 x hx
        omega

theorem shardLoop_sba (env : Env) :
    ∀ rem sh a acc, savedBeforeAttempt (shardLoop env rem sh a).1 acc = true := by
  intro rem
  induction rem with
  | nil => intro sh a acc; simp [shardLoop, savedBeforeAttempt]
  | cons d rest ih =>
    intro sh a acc
    cases hf : (attemptPhase env sh d a).2 with
    | true =>
      simp only [shardLoop, hf, if_true]
      exact attemptPhase_sba env sh d a acc
    | false =>
      simp only [shardLoop, hf]
      simp only [Bool.false_eq_true, if_false]
      rw [savedBeforeAttempt_append]
      rw [attemptPhase_sba env sh d a acc, ih]
      rfl

theorem shardLoop_nfs (env : Env) :
    ∀ rem sh a, (shardLoop env rem sh a).2 = false →
      noFailedSave (shardLoop env rem sh a).1 = true := by
  intro rem
  induction rem with
  | nil => intro sh a _; simp [shardLoop, noFailedSave]
  | cons d rest ih =>
    intro sh a h
    cases hf : (attemptPhase env sh d a).2 with
    | true => simp [shardLoop, hf] at h
    | false =>
      simp only [shardLoop, hf, Bool.false_eq_true, if_false] at h ⊢
      rw [noFailedSave_append]
      rw [attemptPhase_nfs env sh d a hf, ih (sh + 1) 0 h]
      rfl

theorem shardLoop_fatal (env : Env) :
    ∀ rem sh a, (shardLoop env rem sh a).2 = true →
      ∃ t1 sh1 a1,
        (shardLoop env rem sh a).1 = t1 ++ [Event.save sh1 a1 false] ∧
        noFailedSave t1 = true := by
  intro rem
  induction rem with
  | nil => intro sh a h; simp [shardLoop] at h
  | cons d rest ih =>
    intro sh a h
    cases hf : (attemptPhase env sh d a).2 with
    | true =>
      simp only [shardLoop, hf, if_true]
      exact attemptPhase_fatal env sh d a hf
    | false =>
      simp only [shardLoop, hf, Bool.false_eq_true, if_false] at h ⊢
      obtain ⟨t1, sh1, a1, he, hn⟩ := ih (sh + 1) 0 h
      refine ⟨(attemptPhase env sh d a).1 ++ t1, sh1, a1, ?_, ?_⟩
      · rw [he, List.append_assoc]
      · rw [noFailedSave_append, attemptPhase_nfs env sh d a hf, hn]
        rfl

theorem shardLoop_noClear (env : Env) :
    ∀ rem sh a, hasClear (shardLoop env rem sh a).1 = false := by
  intro rem
  induction rem with
  | nil => intro sh a; simp [shardLoop, hasClear]
  | cons d rest ih =>
    intro sh a
    cases hf : (attemptPhase env sh d a).2 with
    | true =>
      simp only [shardLoop, hf, if_true]
      exact attemptPhase_noClear env sh d a
    | false =>
      simp only [shardLoop, hf, Bool.false_eq_true, if_false]
      rw [hasClear_append]
      rw [attemptPhase_noClear env sh d a, ih (sh + 1) 0]
      rfl

/-! ## Trace lemmas for the whole run -/

theorem runFrom_sba (env : Env) (rem : List (List String)) (sh a t : Nat)
    (acc : List (Nat × Nat)) :
    savedBeforeAttempt (runFrom env rem sh a t).1 acc = true := by
  cases hf : (shardLoop env rem sh a).2 with
  | true =>
    simp only [runFrom, hf, if_true]
    exact shardLoop_sba env rem sh a acc
  | false =>
    simp only [runFrom, hf, Bool.false_eq_true, if_false]
    cases hp : env.metaOkPrimary <;> cases hr : env.metaOkRaw <;>
      cases hc : env.clearOk <;>
      simp [savedBeforeAttempt_append, savedBeforeAttempt, shardLoop_sba]

theorem runFrom_absf (env : Env) (rem : List (List String)) (sh a t : Nat) :
    abortsOnSaveFailure (runFrom env rem sh a t).1 (runFrom env rem sh a t).2
      = true := by
  cases hf : (shardLoop env rem sh a).2 with
  | true =>
    simp only [runFrom, hf, if_true]
    obtain ⟨t1, sh1, a1, he, hn⟩ := shardLoop_fatal env rem sh a hf
    rw [he, abortsOnSaveFailure_append _ _ _ hn]
    simp [abortsOnSaveFailure]
  | false =>
    have hclean := shardLoop_nfs env rem sh a hf
    cases hp : env.metaOkPrimary <;> cases hr : env.metaOkRaw <;>
      cases hc : env.clearOk <;>
      · simp only [runFrom, hf, Bool.false_eq_true, if_false, hp, hr, hc,
          if_true]
        apply abortsOnSaveFailure_of_clean
        simp [noFailedSave_append, noFailedSave, hclean]

/-- Claim C5: on every run, every pre-check and worker invocation of an
attempt is preceded in the trace by a successful checkpoint save carrying
that same shard index and (already incremented) attempt counter, and a
failed checkpoint save is the last event of the trace — nothing further is
attempted — with the run returning the save-failure error. -/
theorem run_saves_checkpoint_before_attempt (env : Env)
    (shards : List (List String)) (st : LoopState) :
    savedBeforeAttempt (run env shards st).1 [] = true ∧
    abortsOnSaveFailure (run env shards st).1 (run env shards st).2 = true := by
  constructor
  · by_cases hs : st.shard > 0
    · by_cases hm : shards.length < st.shard - 1
      · simp [run, hs, hm, savedBeforeAttempt]
      · simp only [run, hs, hm, if_true, if_false]
        exact runFrom_sba env _ st.shard st.attempt st.jobTime []
    · simp only [run, hs, if_false]
      exact runFrom_sba env shards st.shard st.attempt st.jobTime []
  · by_cases hs : st.shard > 0
    · by_cases hm : shards.length < st.shard - 1
      · simp [run, hs, hm, abortsOnSaveFailure]
      · simp only [run, hs, hm, if_true, if_false]
        exact runFrom_absf env _ st.shard st.attempt st.jobTime
    · simp only [run, hs, if_false]
      exact runFrom_absf env shards st.shard st.attempt st.jobTime

theorem runFrom_ok_final (env : Env) (rem : List (List String)) (sh a t : Nat)
    (h : (runFrom env rem sh a t).2 = RunRes.ok) :
    (runFrom env rem sh a t).1 =
      (shardLoop env rem sh a).1 ++
        [Event.metaWrite false (sh + rem.length) t true,
         Event.metaWrite true (sh + rem.length) t true, Event.clear true] := by
  cases hf : (shardLoop env rem sh a).2 with
  | true => simp [runFrom, hf] at h
  | false =>
    cases hp : env.metaOkPrimary <;> cases hr : env.metaOkRaw <;>
      cases hc : env.clearOk <;>
      simp [runFrom, hf, hp, hr, hc] at h ⊢

theorem hasClear_single_meta (r : Bool) (c t : Nat) (ok : Bool) :
    hasClear [Event.metaWrite r c t ok] = false := by
  simp [hasClear]

theorem hasClear_double_meta (r1 r2 : Bool) (c1 t1 c2 t2 : Nat)
    (ok1 ok2 : Bool) :
    hasClear [Event.metaWrite r1 c1 t1 ok1, Event.metaWrite r2 c2 t2 ok2]
      = false := by
  simp [hasClear]

theorem runFrom_metafail (env : Env) (rem : List (List String)) (sh a t : Nat)
    (h : env.metaOkPrimary = false ∨ env.metaOkRaw = false) :
    hasClear (runFrom env rem sh a t).1 = false ∧
    (runFrom env rem sh a t).2 ≠ RunRes.ok := by
  cases hf : (shardLoop env rem sh a).2 with
  | true =>
    simp only [runFrom, hf, if_true]
    exact ⟨shardLoop_noClear env rem sh a, by simp⟩
  | false =>
    cases hp : env.metaOkPrimary <;> cases hr : env.metaOkRaw
    · simp only [runFrom, hf, hp, hr, Bool.false_eq_true, if_false]
      rw [hasClear_append, shardLoop_noClear, hasClear_single_meta]
      exact ⟨rfl, by simp⟩
    · simp only [runFrom, hf, hp, hr, Bool.false_eq_true, if_false]
      rw [hasClear_append, shardLoop_noClear, hasClear_single_meta]
      exact ⟨rfl, by simp⟩
    · simp only [runFrom, hf, hp, hr, Bool.false_eq_true, if_false, if_true]
      rw [hasClear_append, shardLoop_noClear, hasClear_double_meta]
      exact ⟨rfl, by simp⟩
    · rw [hp] at h
      rw [hr] at h
      rcases h with h | h <;> cases h

/-- Claim C6: whenever `WorkLoop.Run` returns success its trace ends with
the completion-metadata write to the primary destination, the one to the
raw destination — both with the same shard count and the run's job
timestamp — and, strictly last, the checkpoint clear, with no clear
earlier in the trace; and when either metadata write fails, the
checkpoint is never cleared and the run does not return success. -/
theorem run_finalization_order (env : Env) (shards : List (List String))
    (st : LoopState) :
    ((run env shards st).2 = RunRes.ok →
      ∃ t1 c, (run env shards st).1 =
        t1 ++ [Event.metaWrite false c st.jobTime true,
               Event.metaWrite true c st.jobTime true, Event.clear true] ∧
        hasClear t1 = false) ∧
    ((env.metaOkPrimary = false ∨ env.metaOkRaw = false) →
      hasClear (run env shards st).1 = false ∧
      (run env shards st).2 ≠ RunRes.ok) := by
  constructor
  · intro h
    by_cases hs : st.shard > 0
    · by_cases hm : shards.length < st.shard - 1
      · simp [run, hs, hm] at h
      · simp only [run, hs, hm, if_true, if_false] at h ⊢
        exact ⟨(shardLoop env (shards.drop st.shard) st.shard st.attempt).1,
          st.shard + (shards.drop st.shard).length,
          runFrom_ok_final env _ st.shard st.attempt st.jobTime h,
          shardLoop_noClear env _ st.shard st.attempt⟩
    · simp only [run, hs, if_false] at h ⊢
      exact ⟨(shardLoop env shards st.shard st.attempt).1,
        st.shard + shards.length,
        runFrom_ok_final env shards st.shard st.attempt st.jobTime h,
        shardLoop_noClear env shards st.shard st.attempt⟩
  · intro h
    by_cases hs : st.shard > 0
    · by_cases hm : shards.length < st.shard - 1
      · simp [run, hs, hm, hasClear]
      · simp only [run, hs, hm, if_true, if_false]
        exact runFrom_metafail env _ st.shard st.attempt st.jobTime h
    · simp only [run, hs, if_false]
      exact runFrom_metafail env shards st.shard st.attempt st.jobTime h

/-- Closed instance of claim C6, at a one-shard input: with every
operation succeeding the trace ends with both metadata writes and then
the clear; with a failing primary metadata write nothing is cleared and
the run errors. -/
theorem run_finalization_order_instance :
    (∃ t1 c, (run envAllOk [["r"]] ⟨0, 0, 7⟩).1 =
      t1 ++ [Event.metaWrite false c 7 true, Event.metaWrite true c 7 true,
        Event.clear true] ∧ hasClear t1 = false) ∧
    (hasClear (run envMetaFail [["r"]] ⟨0, 0, 7⟩).1 = false ∧
      (run envMetaFail [["r"]] ⟨0, 0, 7⟩).2 ≠ RunRes.ok) :=
  ⟨(run_finalization_order envAllOk [["r"]] ⟨0, 0, 7⟩).1 (by decide),
   (run_finalization_order envMetaFail [["r"]] ⟨0, 0, 7⟩).2 (Or.inl rfl)⟩

theorem attemptLoop_allyes_noworker (env : Env) (sh : Nat) (d : List String)
    (hy : ∀ sh0 a0, env.exRes sh0 a0 = ExRes.yes) :
    ∀ fuel a, workerEvents (attemptLoop env sh d a fuel).1 = [] := by
  intro fuel
  induction fuel with
  | zero => intro a; simp [attemptLoop, workerEvents]
  | succ n ih =>
    intro a
    by_cases hs : env.saveOk sh (a + 1)
    · simp [attemptLoop, process, hs, hy, workerEvents]
    · simp [attemptLoop, hs, workerEvents]

theorem attemptPhase_allyes_noworker (env : Env) (sh : Nat)
    (d : List String) (a : Nat)
    (hy : ∀ sh0 a0, env.exRes sh0 a0 = ExRes.yes) :
    workerEvents (attemptPhase env sh d a).1 = [] :=
  attemptLoop_allyes_noworker env sh d hy (maxAttempts - a) a

theorem shardLoop_allyes_noworker (env : Env)
    (hy : ∀ sh0 a0, env.exRes sh0 a0 = ExRes.yes) :
    ∀ rem sh a, workerEvents (shardLoop env rem sh a).1 = [] := by
  intro rem
  induction rem with
  | nil => intro sh a; simp [shardLoop, workerEvents]
  | cons d rest ih =>
    intro sh a
    cases hf : (attemptPhase env sh d a).2 with
    | true =>
      simp only [shardLoop, hf, if_true]
      exact attemptPhase_allyes_noworker env sh d a hy
    | false =>
      simp only [shardLoop, hf, Bool.false_eq_true, if_false]
      rw [workerEvents_append, attemptPhase_allyes_noworker env sh d a hy,
        ih (sh + 1) 0]
      rfl

theorem runFrom_allyes_noworker (env : Env)
    (hy : ∀ sh0 a0, env.exRes sh0 a0 = ExRes.yes)
    (rem : List (List String)) (sh a t : Nat) :
    workerEvents (runFrom env rem sh a t).1 = [] := by
  cases hf : (shardLoop env rem sh a).2 with
  | true =>
    simp only [runFrom, hf, if_true]
    exact shardLoop_allyes_noworker env hy rem sh a
  | false =>
    cases hp : env.metaOkPrimary <;> cases hr : env.metaOkRaw <;>
      cases hc : env.clearOk <;>
      · simp only [runFrom, hf, hp, hr, hc, Bool.false_eq_true, if_false,
          if_true]
        rw [workerEvents_append, shardLoop_allyes_noworker env hy rem sh a]
        simp [workerEvents]

/-- Claim C4: when the `resultExists` pre-check reports that the batch
request's result already exists, `WorkLoop.process` returns success
having emitted no worker invocation; consequently a run over a
destination in which every pre-check reports existing output invokes the
worker on no shard at all. -/
theorem process_skips_existing_result :
    (∀ (sh a : Nat) (d : List String) (w : Bool),
      process sh a d ExRes.yes w = ([Event.existsCheck sh a ExRes.yes], true) ∧
      workerEvents (process sh a d ExRes.yes w).1 = []) ∧
    (∀ (env : Env) (shards : List (List String)) (st : LoopState),
      (∀ sh a, env.exRes sh a = ExRes.yes) →
      workerEvents (run env shards st).1 = []) := by
  constructor
  · intro sh a d w
    exact ⟨rfl, rfl⟩
  · intro env shards st hy
    by_cases hs : st.shard > 0
    · by_cases hm : shards.length < st.shard - 1
      · simp [run, hs, hm, workerEvents]
      · simp only [run, hs, hm, if_true, if_false]
        exact runFrom_allyes_noworker env hy _ st.shard st.attempt st.jobTime
    · simp only [run, hs, if_false]
      exact runFrom_allyes_noworker env hy shards st.shard st.attempt
        st.jobTime

/-- Closed instance of claim C4: a two-shard rerun against a destination
that already has all output never invokes the worker. -/
theorem process_skips_existing_result_instance :
    workerEvents (run envAllYes [["r"], ["s"]] ⟨0, 0, 3⟩).1 = [] :=
  process_skips_existing_result.2 envAllYes [["r"], ["s"]] ⟨0, 0, 3⟩
    (fun _ _ => rfl)

/-- Claim C10: a failed `resultExists` pre-check is not fatal: it is
surfaced as an ordinary attempt failure — the attempt counter was already
incremented and saved, the pre-check error is logged, and the retry loop
continues exactly as it does after a worker failure, with one attempt
consumed. -/
theorem precheck_error_consumes_attempt (env : Env) (sh : Nat)
    (d : List String) (a : Nat) (ha : a < maxAttempts)
    (hs : env.saveOk sh (a + 1) = true)
    (hex : env.exRes sh (a + 1) = ExRes.err) :
    attemptPhase env sh d a =
      (Event.save sh (a + 1) true :: Event.existsCheck sh (a + 1) ExRes.err ::
        (attemptPhase env sh d (a + 1)).1,
       (attemptPhase env sh d (a + 1)).2) := by
  have hfuel : maxAttempts - a = (maxAttempts - (a + 1)) + 1 := by omega
  rw [attemptPhase, attemptPhase, hfuel]
  simp [attemptLoop, process, hs, hex]

/-- Closed instance of claim C10: a pre-check error on the first attempt
of shard 0 consumes that attempt and the loop retries at attempt 2. -/
theorem precheck_error_consumes_attempt_instance :
    attemptPhase envPreErr 0 ["r"] 0 =
      (Event.save 0 1 true :: Event.existsCheck 0 1 ExRes.err ::
        (attemptPhase envPreErr 0 ["r"] 1).1,
       (attemptPhase envPreErr 0 ["r"] 1).2) :=
  precheck_error_consumes_attempt envPreErr 0 ["r"] 0 (by decide) rfl rfl

/-- Claim C2 names the intended behaviour, but the code as written does
not implement it: at the input with repositories a and b where Collect
reports a as uncollectable and would collect b fine, the loop of main
writes no output row at all and leaves via the `return` statement of the
`ErrUncollectableRepo` branch — `return` exits `main` itself rather than
continuing the loop, so b and every repository after the uncollectable
one is never collected or written, even though the distinguished error
exists precisely so the caller can skip the one repository and continue
the batch. -/
theorem collectLoop_uncollectable_aborts_batch :
    collectLoop collectAB ["a", "b"] = ([], MainExit.earlyReturn) := by
  decide

theorem attemptLoop_exhaust (env : Env) (sh : Nat) (d : List String) :
    ∀ fuel a, a + fuel ≤ maxAttempts →
      (∀ k, k ≤ maxAttempts → env.saveOk sh k = true) →
      (∀ k, k ≤ maxAttempts → attemptFails env sh k = true) →
      (attemptLoop env sh d a fuel).2 = false ∧
      Event.postProcess sh ∉ (attemptLoop env sh d a fuel).1 := by
  intro fuel
  induction fuel with
  | zero => intro a _ _ _; simp [attemptLoop]
  | succ n ih =>
    intro a hb hsave hfail
    have hs : env.saveOk sh (a + 1) = true := hsave (a + 1) (by omega)
    have hf : attemptFails env sh (a + 1) = true := hfail (a + 1) (by omega)
    obtain ⟨h1, h2⟩ := ih (a + 1) (by omega) hsave hfail
    cases hex : env.exRes sh (a + 1) with
    | err => simp [attemptLoop, process, hs, hex, h1, h2]
    | yes => rw [attemptFails, hex] at hf; cases hf
    | no =>
      have hw : env.workerOk sh (a + 1) = false := by
        rw [attemptFails, hex] at hf
        simpa using hf
      simp [attemptLoop, process, hs, hex, hw, h1, h2]

/-- Claim C1 (amended): exhausting the `maxAttempts` (7) attempts of a
shard is not fatal.  When every attempt of the current shard fails and
every checkpoint save succeeds, the run does not stop: it emits the
shard's attempt events with no `PostProcess`, resets the attempt counter,
advances the shard index, and continues with the following shards exactly
as a run starting there; the overall result is whatever the rest of the
run produces. -/
theorem runFrom_exhausted_shard_advances (env : Env) (d : List String)
    (rest : List (List String)) (sh t : Nat)
    (hsave : ∀ k, k ≤ maxAttempts → env.saveOk sh k = true)
    (hfail : ∀ k, k ≤ maxAttempts → attemptFails env sh k = true) :
    runFrom env (d :: rest) sh 0 t =
      ((attemptPhase env sh d 0).1 ++ (runFrom env rest (sh + 1) 0 t).1,
       (runFrom env rest (sh + 1) 0 t).2) ∧
    (attemptPhase env sh d 0).2 = false ∧
    Event.postProcess sh ∉ (attemptPhase env sh d 0).1 := by
  obtain ⟨hfat, hpp⟩ := attemptLoop_exhaust env sh d maxAttempts 0
    (by omega) hsave hfail
  have hfat' : (attemptPhase env sh d 0).2 = false := hfat
  refine ⟨?_, hfat', hpp⟩
  have hstep : shardLoop env (d :: rest) sh 0 =
      ((attemptPhase env sh d 0).1 ++ (shardLoop env rest (sh + 1) 0).1,
       (shardLoop env rest (sh + 1) 0).2) := by
    simp only [shardLoop, hfat', Bool.false_eq_true, if_false]
  have hc : sh + (rest.length + 1) = sh + 1 + rest.length := by omega
  cases hf2 : (shardLoop env rest (sh + 1) 0).2 with
  | true => simp [runFrom, hstep, hf2]
  | false =>
    cases hp : env.metaOkPrimary <;> cases hr : env.metaOkRaw <;>
      cases hcl : env.clearOk <;>
      simp [runFrom, hstep, hf2, hp, hr, hcl, hc, List.append_assoc]

/-- Claim C1 is contradicted by the code: at a concrete two-shard input
on which every worker invocation for shard 0 fails, the run makes the 7
attempts for shard 0, then advances and processes shard 1, writes
completion metadata recording both shards, clears the checkpoint, and
returns success instead of halting with a fatal error. -/
theorem run_exhaustion_not_fatal_instance :
    (run envFail0 [["a"], ["b"]] ⟨0, 0, 5⟩).2 = RunRes.ok ∧
    workerShards (run envFail0 [["a"], ["b"]] ⟨0, 0, 5⟩).1 =
      [0, 0, 0, 0, 0, 0, 0, 1] ∧
    Event.metaWrite false 2 5 true ∈ (run envFail0 [["a"], ["b"]] ⟨0, 0, 5⟩).1 ∧
    Event.clear true ∈ (run envFail0 [["a"], ["b"]] ⟨0, 0, 5⟩).1 := by
  decide

/-- Closed instance of claim C1 (amended): after shard 0 exhausts its 7
attempts, the run continues as the run of the remaining shard at index 1
with attempt counter 0. -/
theorem runFrom_exhausted_shard_advances_instance :
    runFrom envFail0 [["a"], ["b"]] 0 0 5 =
      ((attemptPhase envFail0 0 ["a"] 0).1 ++
        (runFrom envFail0 [["b"]] 1 0 5).1,
       (runFrom envFail0 [["b"]] 1 0 5).2) ∧
    (attemptPhase envFail0 0 ["a"] 0).2 = false ∧
    Event.postProcess 0 ∉ (attemptPhase envFail0 0 ["a"] 0).1 :=
  runFrom_exhausted_shard_advances envFail0 ["a"] [["b"]] 0 5
    (fun _ _ => rfl) (fun _ _ => rfl)

theorem attemptPhase_first_worker (env : Env) (sh : Nat) (d : List String)
    (a : Nat) (ha : a < maxAttempts) (hs : env.saveOk sh (a + 1) = true)
    (hex : env.exRes sh (a + 1) = ExRes.no) :
    ∃ tl, (attemptPhase env sh d a).1 =
      Event.save sh (a + 1) true :: Event.existsCheck sh (a + 1) ExRes.no ::
      Event.workerCall sh (a + 1) d (env.workerOk sh (a + 1)) :: tl := by
  have hfuel : maxAttempts - a = (maxAttempts - (a + 1)) + 1 := by omega
  rw [attemptPhase, hfuel]
  cases hw : env.workerOk sh (a + 1) with
  | true =>
    exact ⟨[Event.postProcess sh], by simp [attemptLoop, process, hs, hex, hw]⟩
  | false =>
    exact ⟨(attemptLoop env sh d (a + 1) (maxAttempts - (a + 1))).1,
      by simp [attemptLoop, process, hs, hex, hw]⟩

theorem shardLoop_first_worker (env : Env) (d : List String)
    (rest : List (List String)) (sh a : Nat) (ha : a < maxAttempts)
    (hs : env.saveOk sh (a + 1) = true)
    (hex : env.exRes sh (a + 1) = ExRes.no) :
    (workerEvents (shardLoop env (d :: rest) sh a).1).head? =
      some (sh, a + 1, d, env.workerOk sh (a + 1)) := by
  obtain ⟨tl, htl⟩ := attemptPhase_first_worker env sh d a ha hs hex
  cases hf : (attemptPhase env sh d a).2 with
  | true =>
    simp only [shardLoop, hf, if_true]
    rw [htl]
    simp [workerEvents]
  | false =>
    simp only [shardLoop, hf, Bool.false_eq_true, if_false]
    rw [workerEvents_append, htl]
    simp [workerEvents]

theorem runFrom_first_worker (env : Env) (d : List String)
    (rest : List (List String)) (sh a t : Nat) (ha : a < maxAttempts)
    (hs : env.saveOk sh (a + 1) = true)
    (hex : env.exRes sh (a + 1) = ExRes.no) :
    (workerEvents (runFrom env (d :: rest) sh a t).1).head? =
      some (sh, a + 1, d, env.workerOk sh (a + 1)) := by
  have hw := shardLoop_first_worker env d rest sh a ha hs hex
  cases hf : (shardLoop env (d :: rest) sh a).2 with
  | true =>
    simp only [runFrom, hf, if_true]
    exact hw
  | false =>
    cases hp : env.metaOkPrimary <;> cases hr : env.metaOkRaw <;>
      cases hc : env.clearOk <;>
      · simp only [runFrom, hf, hp, hr, hc, Bool.false_eq_true, if_false,
          if_true]
        rw [workerEvents_append]
        rw [List.head?_append_of_ne_nil]
        · exact hw
        · intro hnil
          rw [hnil] at hw
          cases hw

theorem runFrom_worker_ge (env : Env) (rem : List (List String))
    (sh a t x : Nat) (hx : x ∈ workerShards (runFrom env rem sh a t).1) :
    sh ≤ x := by
  cases hf : (shardLoop env rem sh a).2 with
  | true =>
    exact shardLoop_worker_ge env rem sh a x (by simpa [runFrom, hf] using hx)
  | false =>
    refine shardLoop_worker_ge env rem sh a x ?_
    cases hp : env.metaOkPrimary <;> cases hr : env.metaOkRaw <;>
      cases hc : env.clearOk <;>
      · simp only [runFrom, hf, hp, hr, hc, Bool.false_eq_true, if_false,
          if_true, workerShards_append] at hx
        simpa [workerShards] using hx

/-- Claim C3 is contradicted by the code: the checkpoint persisted when
the process crashes during the seventh attempt of shard 1 carries shard
index 1 and attempt counter 7; restarting on a three-shard input restores
to shard 1 but its retry guard `s.Attempt < maxAttempts` is already
false, so the worker is never invoked for shard 1 — the first and only
worker invocation of the restored run is for shard 2. -/
theorem run_restore_not_at_saved_shard_instance :
    workerShards (run envAllOk [["a"], ["b"], ["c"]] ⟨1, 7, 4⟩).1 = [2] ∧
    (run envAllOk [["a"], ["b"], ["c"]] ⟨1, 7, 4⟩).2 = RunRes.ok := by
  decide

/-- Claim C3 (amended): restoring a checkpoint with shard index `S > 0`
and attempt counter below `maxAttempts`, on an input with more than `S`
shards, never invokes the worker for any shard of index below `S`; and
when the checkpoint save of the resumed attempt succeeds and its
pre-check reports no existing output, the first worker invocation of the
run is for shard `S` with the shard at position `S` of the input and the
attempt counter resumed from the checkpoint. -/
theorem run_restore_resumes_at_saved_shard (env : Env)
    (shards : List (List String)) (st : LoopState) (hpos : 0 < st.shard)
    (hn : st.shard < shards.length) (ha : st.attempt < maxAttempts)
    (hs : env.saveOk st.shard (st.attempt + 1) = true)
    (hex : env.exRes st.shard (st.attempt + 1) = ExRes.no) :
    (∀ x ∈ workerShards (run env shards st).1, st.shard ≤ x) ∧
    (workerEvents (run env shards st).1).head? =
      some (st.shard, st.attempt + 1, shards.get ⟨st.shard, hn⟩,
        env.workerOk st.shard (st.attempt + 1)) := by
  have hm : ¬ shards.length < st.shard - 1 := by omega
  have hdrop : shards.drop st.shard =
      shards.get ⟨st.shard, hn⟩ :: shards.drop (st.shard + 1) := by
    rw [List.drop_eq_getElem_cons hn]
    rfl
  constructor
  · intro x hx
    rw [run, if_pos hpos, if_neg hm] at hx
    exact runFrom_worker_ge env _ st.shard st.attempt st.jobTime x hx
  · rw [run, if_pos hpos, if_neg hm, hdrop]
    exact runFrom_first_worker env _ _ st.shard st.attempt st.jobTime ha hs hex

/-- Closed instance of claim C3 (amended): restoring shard index 1 with
attempt counter 0 on a two-shard input first invokes the worker for the
shard at position 1. -/
theorem run_restore_resumes_at_saved_shard_instance :
    (workerEvents (run envAllOk [["a"], ["b"]] ⟨1, 0, 3⟩).1).head? =
      some (1, 1, ["b"], true) := by
  have h := run_restore_resumes_at_saved_shard envAllOk [["a"], ["b"]]
    ⟨1, 0, 3⟩ (by decide) (by decide) (by decide) rfl rfl
  simpa using h.2

/-! ## Registry claims -/

/-- Claim C7: when the collector's Collect succeeds it returns exactly
one Set per registered source — the slice has one entry per registered
source in registration order, the fetched Set for each source supporting
the repository and that source's empty template for each source that does
not — so its length always equals the number of registered sources. -/
theorem collect_length_eq_sources (r : List Source) (repo jobID : String)
    (sets : List SigSet) (h : collect r repo jobID = Except.ok sets) :
    sets.length = r.length ∧
    ∀ p ∈ r.zip sets,
      (p.1.isSupported repo = true → p.1.get repo jobID = Except.ok p.2) ∧
      (p.1.isSupported repo = false → p.2 = p.1.emptySet) := by
  induction r generalizing sets with
  | nil =>
    simp [collect] at h
    simp [← h]
  | cons s rest ih =>
    cases hsup : s.isSupported repo with
    | true =>
      cases hget : s.get repo jobID with
      | error e => simp [collect, hsup, hget] at h
      | ok v =>
        cases hrest : collect rest repo jobID with
        | error e => simp [collect, hsup, hget, hrest] at h
        | ok sets2 =>
          simp only [collect, hsup, if_true, hget, hrest] at h
          rw [Except.ok.injEq] at h
          obtain ⟨h1, h2⟩ := ih sets2 hrest
          subst h
          refine ⟨by simp [h1], ?_⟩
          intro p hp
          rw [List.zip_cons_cons, List.mem_cons] at hp
          rcases hp with rfl | hp
          · exact ⟨fun _ => hget, fun hf => by rw [hsup] at hf; cases hf⟩
          · exact h2 p hp
    | false =>
      cases hrest : collect rest repo jobID with
      | error e => simp [collect, hsup, hrest] at h
      | ok sets2 =>
        simp only [collect, hsup, Bool.false_eq_true, if_false] at h
        rw [hrest, Except.ok.injEq] at h
        obtain ⟨h1, h2⟩ := ih sets2 hrest
        subst h
        refine ⟨by simp [h1], ?_⟩
        intro p hp
        rw [List.zip_cons_cons, List.mem_cons] at hp
        rcases hp with rfl | hp
        · exact ⟨fun ht => (by rw [hsup] at ht; cases ht), fun _ => rfl⟩
        · exact h2 p hp

/-- Closed instance of claim C7: a registry of one supporting and one
non-supporting source yields two Sets: the fetched one and the second
source's empty template; the first source's fetch produced the first
Set. -/
theorem collect_length_eq_sources_instance :
    (⟨"a", true⟩ :: [(⟨"b", false⟩ : SigSet)]).length = [srcA, srcB].length ∧
    srcA.get "repo" "job" = Except.ok ⟨"a", true⟩ :=
  have h := collect_length_eq_sources [srcA, srcB] "repo" "job"
    [⟨"a", true⟩, ⟨"b", false⟩] rfl
  ⟨h.1, (h.2 (srcA, ⟨"a", true⟩) (List.mem_cons_self _ _)).1 rfl⟩

/-- Claim C8: if any source supporting the repository fails its fetch,
Collect for that repository returns an error — the merged Set list is not
produced and the failing namespace is not silently replaced by its empty
template. -/
theorem collect_failfast (r : List Source) (repo jobID msg : String)
    (s : Source) (hmem : s ∈ r) (hsup : s.isSupported repo = true)
    (herr : s.get repo jobID = Except.error msg) :
    ∃ e, collect r repo jobID = Except.error e := by
  induction r with
  | nil => cases hmem
  | cons s0 rest ih =>
    rcases List.mem_cons.mp hmem with rfl | hmem2
    · exact ⟨msg, by simp [collect, hsup, herr]⟩
    · by_cases hsup0 : s0.isSupported repo
      · cases hget : s0.get repo jobID with
        | error e => exact ⟨e, by simp [collect, hsup0, hget]⟩
        | ok v =>
          obtain ⟨e, he⟩ := ih hmem2
          exact ⟨e, by simp [collect, hsup0, hget, he]⟩
      · obtain ⟨e, he⟩ := ih hmem2
        exact ⟨e, by simp [collect, hsup0, he]⟩

/-- Closed instance of claim C8: a registry whose only source supports
the repository and fails its fetch makes Collect error. -/
theorem collect_failfast_instance :
    ∃ e, collect [srcFail] "repo" "job" = Except.error e :=
  collect_failfast [srcFail] "repo" "job" "fetch failed" srcFail
    (List.mem_cons_self _ _) rfl rfl

theorem registerFrom_ok (rest : List Source) :
    ∀ acc : List Source,
      (((acc ++ rest).map fun s => s.emptySet.ns).Nodup) →
      (∀ s ∈ rest, validNamespace s.emptySet.ns = true) →
      registerFrom acc rest = Except.ok (acc ++ rest) := by
  induction rest with
  | nil => intro acc _ _; simp [registerFrom]
  | cons s rest2 ih =>
    intro acc hnd hv
    have hvs : validNamespace s.emptySet.ns = true :=
      hv s (List.mem_cons_self s rest2)
    have hdisj : (acc.map fun s0 => s0.emptySet.ns).Disjoint
        ((s :: rest2).map fun s0 => s0.emptySet.ns) :=
      List.disjoint_of_nodup_append (by simpa [List.map_append] using hnd)
    have hnotmem : s.emptySet.ns ∉ acc.map fun s0 => s0.emptySet.ns := by
      intro hin
      exact hdisj hin (by simp)
    have hany : (acc.any fun s0 => s0.emptySet.ns == s.emptySet.ns) = false := by
      rw [Bool.eq_false_iff]
      intro htrue
      obtain ⟨s0, hs0, hbeq⟩ := List.any_eq_true.mp htrue
      exact hnotmem (List.mem_map.mpr ⟨s0, hs0, by simpa using hbeq⟩)
    have hreg : register acc s = Except.ok (acc ++ [s]) := by
      simp [register, hvs, hany]
    have hnd2 : (((acc ++ [s]) ++ rest2).map fun s0 => s0.emptySet.ns).Nodup := by
      simpa [List.append_assoc] using hnd
    have hv2 : ∀ s0 ∈ rest2, validNamespace s0.emptySet.ns = true :=
      fun s0 hs0 => hv s0 (List.mem_cons_of_mem s hs0)
    rw [registerFrom, hreg]
    show registerFrom (acc ++ [s]) rest2 = Except.ok (acc ++ s :: rest2)
    rw [ih (acc ++ [s]) hnd2 hv2]
    simp

/-- Claim C9: Register fails when the new source's namespace collides
with an already-registered namespace or is structurally invalid, while
registering sources with pairwise-distinct valid namespaces succeeds in
order and EmptySets then returns one empty template per registered source
in registration order. -/
theorem register_namespace_contract :
    (∀ (r : List Source) (s : Source),
      s.emptySet.ns ∈ r.map (fun s0 => s0.emptySet.ns) →
      ∃ e, register r s = Except.error e) ∧
    (∀ (r : List Source) (s : Source),
      validNamespace s.emptySet.ns = false →
      ∃ e, register r s = Except.error e) ∧
    (∀ ss : List Source,
      ((ss.map fun s => s.emptySet.ns).Nodup) →
      (∀ s ∈ ss, validNamespace s.emptySet.ns = true) →
      registerAll ss = Except.ok ss ∧
      emptySets ss = ss.map fun s => s.emptySet) := by
  refine ⟨?_, ?_, ?_⟩
  · intro r s hmem
    by_cases hv : validNamespace s.emptySet.ns
    · have hany : (r.any fun s0 => s0.emptySet.ns == s.emptySet.ns) = true := by
        rw [List.any_eq_true]
        obtain ⟨s0, hs0, hns⟩ := List.mem_map.mp hmem
        exact ⟨s0, hs0, by simp [hns]⟩
      exact ⟨"duplicate namespace", by simp [register, hv, hany]⟩
    · have hv2 : validNamespace s.emptySet.ns = false := Bool.eq_false_iff.mpr hv
      exact ⟨"invalid namespace", by simp [register, hv2]⟩
  · intro r s hv
    exact ⟨"invalid namespace", by simp [register, hv]⟩
  · intro ss hnd hv
    refine ⟨?_, rfl⟩
    rw [registerAll, registerFrom_ok ss [] (by simpa using hnd) hv]
    rfl

/-- Closed instance of claim C9: registering a second source under the
namespace a fails; registering a source with the invalid namespace of
the registry test fails; registering sources with distinct valid
namespaces a and b succeeds in order with their two empty templates. -/
theorem register_namespace_contract_instance :
    (∃ e, register [srcA] srcA2 = Except.error e) ∧
    (∃ e, register [] srcBad = Except.error e) ∧
    (registerAll [srcA, srcB] = Except.ok [srcA, srcB] ∧
      emptySets [srcA, srcB] = [srcA.emptySet, srcB.emptySet]) :=
  ⟨register_namespace_contract.1 [srcA] srcA2 (by simp [srcA, srcA2]),
   register_namespace_contract.2.1 [] srcBad (by decide),
   register_namespace_contract.2.2 [srcA, srcB] (by decide)
     (by intro s hs; rcases List.mem_cons.mp hs with rfl | hs
         · decide
         · rcases List.mem_cons.mp hs with rfl | hs
           · decide
           · cases hs)⟩

end Criticality
